import Mathlib

/-
Verification of the functional core of the `obsidian-applescripts-runner`
plugin (src/main.ts) against its natural-language specification.

The embedding models JavaScript strings as Lean `String` / `List Char`:
`String.prototype.trim`, `String.prototype.split('\n')`,
`String.prototype.startsWith`, `String.prototype.includes` and the regex
match `/\[\[(.*?)\]\]/` are given explicit executable definitions, and the
three core routines `extractDoneSection`, `handleFileChange` and
`runAppleScript` (its pure script-composition part, `composeScript`) are
translated statement by statement.  The asynchronous effects of
`handleFileChange` (the vault read and the `osascript` invocation) are
passed in as oracle inputs `ReadResult` / `ScriptOutcome`, and the handler
returns the successor of the mutable field `lastDoneContent` together with
the list of dispatched payloads and a flag recording whether a read was
attempted.
-/

namespace AppleScriptRunner

/-- Representation of the objects `{title: string}` returned by
`extractDoneSection` (src/main.ts line 100). -/
structure TaskRecord where
  title : String
deriving DecidableEq, Repr

/-- Model of JavaScript `String.prototype.trim`: drop whitespace from both
ends (for the ASCII inputs of this plugin, `Char.isWhitespace` coincides
with the JS whitespace class). -/
def jsTrim (cs : List Char) : List Char :=
  ((cs.dropWhile Char.isWhitespace).reverse.dropWhile Char.isWhitespace).reverse

/-- Model of JavaScript `content.split('\n')` (src/main.ts line 101):
splitting on every newline, keeping empty segments. -/
def splitLines : List Char → List (List Char)
  | [] => [[]]
  | c :: rest =>
    if c = '\n' then [] :: splitLines rest
    else
      match splitLines rest with
      | [] => [[c]]
      | l :: ls => (c :: l) :: ls

/-- Model of `line.includes('[[')` (src/main.ts line 115): scan for the
leftmost occurrence of two consecutive `[` characters. -/
def includesWikiOpen : List Char → Bool
  | [] => false
  | c :: rest =>
    if c = '[' ∧ rest.head? = some '[' then true else includesWikiOpen rest

/-- Scanner for an occurrence of two consecutive `]` characters, the closing
counterpart of `includesWikiOpen`. -/
def includesWikiClose : List Char → Bool
  | [] => false
  | c :: rest =>
    if c = ']' ∧ rest.head? = some ']' then true else includesWikiClose rest

/-- Helper for the regex `/\[\[(.*?)\]\]/`: after the opening `[[` has been
consumed, capture the characters up to the first following `]]` (the
non-greedy `(.*?)`), or fail when no `]]` follows. -/
def captureClose : List Char → Option (List Char)
  | [] => none
  | c :: rest =>
    if c = ']' ∧ rest.head? = some ']' then some []
    else (captureClose rest).map (fun t => c :: t)

/-- Model of `line.match(/\[\[(.*?)\]\]/)` restricted to the first capture
group (src/main.ts line 116): the match starts at the leftmost `[[` and the
capture extends to the first `]]` after it.  (If the leftmost `[[` has no
closing `]]` anywhere after it, no later `[[` can have one either --- any
`]]` after a later `[[` would also sit after the leftmost one --- so
returning `none` there agrees with the backtracking regex engine.) -/
def firstWikiLink : List Char → Option (List Char)
  | [] => none
  | c :: rest =>
    if c = '[' ∧ rest.head? = some '[' then captureClose rest.tail
    else firstWikiLink rest

/-- Contribution of a single line inside the Done section
(src/main.ts lines 115–122): if the line contains `[[` and the regex
matches, one task record with the trimmed first capture; otherwise none. -/
def lineTask (line : List Char) : Option TaskRecord :=
  if includesWikiOpen line then
    match firstWikiLink line with
    | some t => some ⟨String.mk (jsTrim t)⟩
    | none => none
  else none

/-- Characters of the section marker `'## Done'` (src/main.ts line 106). -/
def doneMarker : List Char := "## Done".data

/-- Characters of the heading mark `'## '` (src/main.ts line 111). -/
def headingMark : List Char := "## ".data

/-- The scanning loop of `extractDoneSection` (src/main.ts lines 105–123),
with the flag `isDoneSection` and the accumulated `tasks` made explicit.
The branches appear in source order: the `'## Done'` marker test (which
`continue`s), the `'## '` break test, and the wiki-link collection. -/
def extractLoop : List (List Char) → Bool → List TaskRecord → List TaskRecord
  | [], _, tasks => tasks
  | line :: rest, isDoneSection, tasks =>
    if jsTrim line = doneMarker then
      extractLoop rest true tasks
    else if isDoneSection ∧ headingMark.isPrefixOf line then
      tasks
    else if isDoneSection then
      match lineTask line with
      | some t => extractLoop rest isDoneSection (tasks ++ [t])
      | none => extractLoop rest isDoneSection tasks
    else
      extractLoop rest isDoneSection tasks

/-- Model of `extractDoneSection` (src/main.ts lines 100–126). -/
def extractDoneSection (content : String) : List TaskRecord :=
  extractLoop (splitLines content.data) false []

/-- The settings record `AppleScriptPluginSettings` (src/main.ts
lines 7–12). -/
structure AppleScriptPluginSettings where
  defaultScript : String
  enableDoneHeadingTrigger : Bool
  targetFiles : List String
  calendarName : String
deriving DecidableEq, Repr

/-- The hard-coded `DEFAULT_SETTINGS` (src/main.ts lines 14–19). -/
def DEFAULT_SETTINGS : AppleScriptPluginSettings :=
  ⟨"", true, [], "Logs"⟩

/-- The optional `eventData` argument of `runAppleScript`
(src/main.ts line 140): `{title: string, content: string}`. -/
structure DispatchPayload where
  title : String
  content : String
deriving DecidableEq, Repr

/-- Oracle for the outcome of `this.app.vault.read(file)`
(src/main.ts line 71): either the file's text or an I/O failure. -/
inductive ReadResult where
  | ok (content : String)
  | err
deriving DecidableEq, Repr

/-- Oracle for the outcome of the `osascript` invocation inside
`runAppleScript` (src/main.ts line 147): normal return or a thrown
error (which `runAppleScript` re-throws to its caller). -/
inductive ScriptOutcome where
  | ok
  | fail
deriving DecidableEq, Repr

/-- Observable result of one `handleFileChange` call: the new value of the
mutable field `lastDoneContent`, the payloads passed to `runAppleScript`,
and whether a vault read was attempted. -/
structure HandleResult where
  lastDoneContent : List TaskRecord
  dispatched : List DispatchPayload
  readAttempted : Bool
deriving DecidableEq, Repr

/-- Model of `handleFileChange` (src/main.ts lines 65–89).  `st` is the
value of `this.lastDoneContent` on entry and `path` is `file.path`.
JavaScript control flow made explicit: the `if (doneData)` test is always
true (an array is truthy, even when empty); when `runAppleScript` throws,
the exception skips the assignment `this.lastDoneContent = doneData` and is
caught by the surrounding `catch`, so the state keeps its old value; the
`getLast? = none` branch is unreachable under the growth guard (it models
the `undefined` access `doneData[-1]`, whose field access would throw into
the same `catch` before any dispatch or state update). -/
def handleFileChange (settings : AppleScriptPluginSettings)
    (st : List TaskRecord) (path : String)
    (readResult : ReadResult) (outcome : ScriptOutcome) : HandleResult :=
  if ¬ settings.targetFiles.contains path then
    ⟨st, [], false⟩
  else
    match readResult with
    | .err => ⟨st, [], true⟩
    | .ok content =>
      if (extractDoneSection content).length > st.length then
        match (extractDoneSection content).getLast? with
        | some latestDone =>
          match outcome with
          | .fail => ⟨st, [⟨latestDone.title, latestDone.title⟩], true⟩
          | .ok => ⟨extractDoneSection content,
              [⟨latestDone.title, latestDone.title⟩], true⟩
        | none => ⟨st, [], true⟩
      else
        ⟨extractDoneSection content, [], true⟩

/-- The pure script-composition part of `runAppleScript`
(src/main.ts lines 140–144): when `eventData` is present, prepend the
`set input to ...` statement, interpolating the calendar name, title and
content as raw text with no escaping. -/
def composeScript (calendarName : String) (script : String)
    (eventData : Option DispatchPayload) : String :=
  match eventData with
  | none => script
  | some e =>
    "set input to \x7bcalendarName:\"" ++ calendarName ++ "\", summary:\"" ++
      e.title ++ "\", description:\"" ++ e.content ++ "\"\x7d" ++ "\n" ++ script

/-- Lines before the first `## Done` marker are skipped without collecting
anything: the scan over `pre ++ rest` outside the section behaves like the
scan over `rest`. -/
theorem extractLoop_skip_before_marker (pre rest : List (List Char))
    (acc : List TaskRecord) (h : ∀ l ∈ pre, jsTrim l ≠ doneMarker) :
    extractLoop (pre ++ rest) false acc = extractLoop rest false acc := by
  induction pre with
  | nil => rfl
  | cons line pre ih =>
    have h1 := h line (by simp)
    rw [List.cons_append]
    simp only [extractLoop]
    rw [if_neg h1, if_neg (by simp), if_neg (by simp)]
    exact ih fun l hl => h l (by simp [hl])

/-- Inside the Done section, as long as no line re-triggers the marker test
or starts with `## `, the loop appends exactly the per-line contributions
in document order. -/
theorem extractLoop_section (lines : List (List Char)) (acc : List TaskRecord)
    (h : ∀ l ∈ lines, headingMark.isPrefixOf l = false ∧ jsTrim l ≠ doneMarker) :
    extractLoop lines true acc = acc ++ lines.filterMap lineTask := by
  induction lines generalizing acc with
  | nil => simp [extractLoop]
  | cons line rest ih =>
    obtain ⟨h1, h2⟩ := h line (by simp)
    have hr : ∀ l ∈ rest, headingMark.isPrefixOf l = false ∧ jsTrim l ≠ doneMarker :=
      fun l hl => h l (by simp [hl])
    simp only [extractLoop]
    rw [if_neg h2, if_neg (by simp [h1]), if_pos (by simp)]
    cases hl : lineTask line with
    | none => simpa [List.filterMap_cons, hl] using ih acc hr
    | some t => simpa [List.filterMap_cons, hl] using ih (acc ++ [t]) hr

/-- Appending different tails after the same head element does not change
the head of the whole list. -/
theorem head?_append_cons (t : List Char) (a : Char) (r1 r2 : List Char) :
    (t ++ a :: r1).head? = (t ++ a :: r2).head? := by
  cases t <;> rfl

/-- When `t` forms no `]]` pair (even jointly with the closing bracket that
follows it), the non-greedy capture stops exactly at the `]]` after `t`. -/
theorem captureClose_boundary (t rest : List Char)
    (h : includesWikiClose (t ++ [']']) = false) :
    captureClose (t ++ ']' :: ']' :: rest) = some t := by
  induction t with
  | nil => simp [captureClose]
  | cons c t ih =>
    rw [List.cons_append] at h ⊢
    simp only [includesWikiClose] at h
    simp only [captureClose]
    by_cases hc : c = ']' ∧ (t ++ [']']).head? = some ']'
    · rw [if_pos hc] at h; exact absurd h (by simp)
    · rw [if_neg hc] at h
      rw [if_neg (by rw [← head?_append_cons t ']' (']' :: rest) []] at hc; exact hc)]
      rw [ih h]
      rfl

/-- When `pre` forms no `[[` pair (even jointly with the opening bracket
that follows it), the regex match starts exactly at the `[[` after `pre`. -/
theorem firstWikiLink_boundary (pre s : List Char)
    (h : includesWikiOpen (pre ++ ['[']) = false) :
    firstWikiLink (pre ++ '[' :: '[' :: s) = captureClose s := by
  induction pre with
  | nil => simp [firstWikiLink]
  | cons c pre ih =>
    rw [List.cons_append] at h ⊢
    simp only [includesWikiOpen] at h
    simp only [firstWikiLink]
    by_cases hc : c = '[' ∧ (pre ++ ['[']).head? = some '['
    · rw [if_pos hc] at h; exact absurd h (by simp)
    · rw [if_neg hc] at h
      rw [if_neg (by rw [← head?_append_cons pre '[' ('[' :: s) []] at hc; exact hc)]
      exact ih h

/-- A list that visibly contains `[[` passes the `includes('[[')` test. -/
theorem includesWikiOpen_append (pre s : List Char) :
    includesWikiOpen (pre ++ '[' :: '[' :: s) = true := by
  induction pre with
  | nil => simp [includesWikiOpen]
  | cons c pre ih =>
    rw [List.cons_append]
    simp only [includesWikiOpen]
    by_cases hc : c = '[' ∧ (pre ++ '[' :: '[' :: s).head? = some '['
    · rw [if_pos hc]
    · rw [if_neg hc]; exact ih

/-- General first-match lemma: on a line `pre [[t]] rest` whose `pre` holds
no earlier `[[` and whose `t` holds no earlier `]]`, the line contributes
exactly one record, the trimmed `t` --- whatever (including further
wiki-links) appears in `rest`. -/
theorem lineTask_first (pre t rest : List Char)
    (hpre : includesWikiOpen (pre ++ ['[']) = false)
    (ht : includesWikiClose (t ++ [']']) = false) :
    lineTask (pre ++ '[' :: '[' :: (t ++ ']' :: ']' :: rest)) =
      some ⟨String.mk (jsTrim t)⟩ := by
  unfold lineTask
  rw [if_pos (by rw [includesWikiOpen_append])]
  rw [firstWikiLink_boundary pre _ hpre, captureClose_boundary t rest ht]

/-- On a monitored path with a successful read, `handleFileChange` reduces
to the growth comparison between the freshly extracted sequence and the
stored one. -/
theorem handleFileChange_ok_reduction (settings : AppleScriptPluginSettings)
    (st : List TaskRecord) (path : String) (content : String)
    (outcome : ScriptOutcome)
    (hmem : settings.targetFiles.contains path = true) :
    handleFileChange settings st path (.ok content) outcome =
      if (extractDoneSection content).length > st.length then
        match (extractDoneSection content).getLast? with
        | some latestDone =>
          match outcome with
          | .fail => ⟨st, [⟨latestDone.title, latestDone.title⟩], true⟩
          | .ok => ⟨extractDoneSection content,
              [⟨latestDone.title, latestDone.title⟩], true⟩
        | none => ⟨st, [], true⟩
      else ⟨extractDoneSection content, [], true⟩ := by
  unfold handleFileChange
  rw [if_neg (by simpa using hmem)]

/-- C1: on a monitored file whose read succeeds, if the extracted sequence
is strictly longer than the stored state, exactly one dispatch occurs and
its payload is built from the last element of the new sequence with the
title duplicated into both fields. -/
theorem handleFileChange_growth_single_dispatch (settings : AppleScriptPluginSettings)
    (st : List TaskRecord) (path : String) (content : String)
    (outcome : ScriptOutcome)
    (hmem : settings.targetFiles.contains path = true)
    (hgrow : st.length < (extractDoneSection content).length) :
    ∃ last, (extractDoneSection content).getLast? = some last ∧
      (handleFileChange settings st path (.ok content) outcome).dispatched =
        [⟨last.title, last.title⟩] := by
  have hne : extractDoneSection content ≠ [] := by
    intro hnil
    rw [hnil] at hgrow
    simp at hgrow
  obtain ⟨last, hlast⟩ : ∃ last, (extractDoneSection content).getLast? = some last := by
    cases he : (extractDoneSection content).getLast? with
    | none => exact absurd (List.getLast?_eq_none_iff.mp he) hne
    | some a => exact ⟨a, rfl⟩
  refine ⟨last, hlast, ?_⟩
  rw [handleFileChange_ok_reduction settings st path content outcome hmem,
    if_pos (by omega), hlast]
  cases outcome <;> rfl

/-- Witness for C1, reproducing the spec's example: prior length 2, new
sequence of three records, dispatched payload `{title:"C", content:"C"}`. -/
theorem handleFileChange_growth_single_dispatch_witness :
    (handleFileChange ⟨"say input", true, ["board.md"], "Logs"⟩ [⟨"A"⟩, ⟨"B"⟩]
      "board.md" (.ok "## Done\n- [[A]]\n- [[B]]\n- [[C]]") .ok).dispatched =
      [⟨"C", "C"⟩] := by
  obtain ⟨last, hlast, hd⟩ := handleFileChange_growth_single_dispatch
    ⟨"say input", true, ["board.md"], "Logs"⟩ [⟨"A"⟩, ⟨"B"⟩] "board.md"
    "## Done\n- [[A]]\n- [[B]]\n- [[C]]" .ok (by decide) (by decide)
  rw [hd]
  have hc : last = ⟨"C"⟩ := by
    rw [show extractDoneSection "## Done\n- [[A]]\n- [[B]]\n- [[C]]" =
      [⟨"A"⟩, ⟨"B"⟩, ⟨"C"⟩] from by decide] at hlast
    simpa using hlast.symm
  rw [hc]

/-- C2 counterexample: a `## Done` line inside the section starts with
`## ` yet does not terminate the scan --- the marker test comes first and
re-enters the section, so the wiki-link after it is still collected.  Under
the claim as stated the scan would stop at that heading and extraction
would yield no record from `[[B]]`. -/
theorem extractDoneSection_second_done_not_terminating :
    headingMark.isPrefixOf "## Done".data = true ∧
    extractDoneSection "## Done\n## Done\n[[B]]" = [⟨"B"⟩] := by
  constructor <;> decide

/-- C2 (amended): once inside the Done section, a line starting with `## `
whose trimmed content is not exactly `## Done` terminates the scan at once,
discarding that line and everything after it; a line trimming to `## Done`
instead re-enters the section and the scan continues. -/
theorem extractLoop_heading_termination :
    (∀ (line : List Char) (rest : List (List Char)) (acc : List TaskRecord),
      headingMark.isPrefixOf line = true → jsTrim line ≠ doneMarker →
      extractLoop (line :: rest) true acc = acc) ∧
    (∀ (line : List Char) (rest : List (List Char)) (acc : List TaskRecord),
      jsTrim line = doneMarker →
      extractLoop (line :: rest) true acc = extractLoop rest true acc) := by
  constructor
  · intro line rest acc h1 h2
    simp only [extractLoop]
    rw [if_neg h2, if_pos (by simp [h1])]
  · intro line rest acc h1
    simp only [extractLoop]
    rw [if_pos h1]

/-- Witness for the amended C2: `## Other` stops the scan dead even with a
wiki-link line behind it, while a repeated `## Done` merely continues. -/
theorem extractLoop_heading_termination_witness :
    extractLoop ["## Other".data, "[[X]]".data] true [⟨"A"⟩] = [⟨"A"⟩] ∧
    extractLoop ["## Done".data, "[[B]]".data] true [] =
      extractLoop ["[[B]]".data] true [] :=
  ⟨extractLoop_heading_termination.1 "## Other".data ["[[X]]".data] [⟨"A"⟩]
      (by decide) (by decide),
   extractLoop_heading_termination.2 "## Done".data ["[[B]]".data] [] (by decide)⟩

/-- C3 counterexample: with an empty stored state, a one-record Done
section and a failing `osascript` invocation, the dispatch is attempted
(the payload list is non-empty) but `lastDoneContent` remains `[]` instead
of being overwritten with the extracted `[{title:"A"}]` --- the thrown error
jumps over the state assignment into the `catch`. -/
theorem handleFileChange_failed_dispatch_keeps_state :
    extractDoneSection "## Done\n[[A]]" = [⟨"A"⟩] ∧
    (handleFileChange ⟨"s", true, ["f"], "Logs"⟩ [] "f"
      (.ok "## Done\n[[A]]") .fail).dispatched = [⟨"A", "A"⟩] ∧
    (handleFileChange ⟨"s", true, ["f"], "Logs"⟩ [] "f"
      (.ok "## Done\n[[A]]") .fail).lastDoneContent = [] := by
  refine ⟨by decide, by decide, by decide⟩

/-- C3 (amended): on a monitored file whose read succeeds, ObservedState is
overwritten with the newly extracted sequence whenever no dispatch was
triggered or the dispatch succeeded; when a triggered dispatch throws, the
error is caught at the boundary but the state update is skipped and the old
state is kept. -/
theorem handleFileChange_state_update_conditional (settings : AppleScriptPluginSettings)
    (st : List TaskRecord) (path : String) (content : String)
    (outcome : ScriptOutcome)
    (hmem : settings.targetFiles.contains path = true) :
    (handleFileChange settings st path (.ok content) outcome).lastDoneContent =
      if st.length < (extractDoneSection content).length ∧ outcome = .fail
      then st else extractDoneSection content := by
  rw [handleFileChange_ok_reduction settings st path content outcome hmem]
  by_cases hg : (extractDoneSection content).length > st.length
  · have hne : extractDoneSection content ≠ [] := by
      intro hnil
      rw [hnil] at hg
      simp at hg
    obtain ⟨last, hlast⟩ : ∃ last, (extractDoneSection content).getLast? = some last := by
      cases he : (extractDoneSection content).getLast? with
      | none => exact absurd (List.getLast?_eq_none_iff.mp he) hne
      | some a => exact ⟨a, rfl⟩
    rw [if_pos hg, hlast]
    cases outcome with
    | fail => rw [if_pos ⟨hg, rfl⟩]
    | ok => rw [if_neg (by simp)]
  · rw [if_neg hg, if_neg (by rintro ⟨h1, h2⟩; omega)]

/-- Witness for the amended C3: with a successful dispatch the state is
overwritten with the extracted sequence. -/
theorem handleFileChange_state_update_conditional_witness :
    (handleFileChange ⟨"s", true, ["f"], "Logs"⟩ [] "f"
      (.ok "## Done\n[[A]]") .ok).lastDoneContent = [⟨"A"⟩] := by
  have h := handleFileChange_state_update_conditional ⟨"s", true, ["f"], "Logs"⟩
    [] "f" "## Done\n[[A]]" .ok (by decide)
  rw [h]
  decide

/-- C4: when the vault read fails on a monitored file, the state is exactly
as before, nothing is dispatched, and the error is swallowed (the handler,
a total function here, returns normally). -/
theorem handleFileChange_read_failure_frame (settings : AppleScriptPluginSettings)
    (st : List TaskRecord) (path : String) (outcome : ScriptOutcome)
    (h : settings.targetFiles.contains path = true) :
    handleFileChange settings st path .err outcome = ⟨st, [], true⟩ := by
  unfold handleFileChange
  rw [if_neg (by simpa using h)]

/-- Witness for C4 at a concrete monitored file. -/
theorem handleFileChange_read_failure_frame_witness :
    handleFileChange ⟨"say input", true, ["board.md"], "Logs"⟩ [⟨"A"⟩]
      "board.md" .err .ok = ⟨[⟨"A"⟩], [], true⟩ :=
  handleFileChange_read_failure_frame ⟨"say input", true, ["board.md"], "Logs"⟩
    [⟨"A"⟩] "board.md" .ok (by decide)

/-- C5: the extractor preserves document order.  First conjunct: inside the
section, the output is the in-order concatenation of the per-line
contributions.  Second conjunct: for any text whose Done section consists
of the wiki-link lines `[[A]]`, `[[B]]`, `[[C]]` in that order (after
arbitrary non-marker lines), extraction yields exactly those three titles
in order.  Third conjunct: the spec's concrete example. -/
theorem extractDoneSection_preserves_order :
    (∀ (lines : List (List Char)) (acc : List TaskRecord),
      (∀ l ∈ lines, headingMark.isPrefixOf l = false ∧ jsTrim l ≠ doneMarker) →
      extractLoop lines true acc = acc ++ lines.filterMap lineTask) ∧
    (∀ pre : List (List Char), (∀ l ∈ pre, jsTrim l ≠ doneMarker) →
      extractLoop (pre ++ ["## Done".data, "[[A]]".data, "[[B]]".data, "[[C]]".data])
        false [] = [⟨"A"⟩, ⟨"B"⟩, ⟨"C"⟩]) ∧
    extractDoneSection "## Done\n[[A]]\n[[B]]\n[[C]]" = [⟨"A"⟩, ⟨"B"⟩, ⟨"C"⟩] := by
  refine ⟨extractLoop_section, ?_, by decide⟩
  intro pre hpre
  rw [extractLoop_skip_before_marker pre _ [] hpre]
  decide

/-- Witness for C5: in-order collection over concrete section lines, and
the `[[A]]`, `[[B]]`, `[[C]]` document with an introductory line. -/
theorem extractDoneSection_preserves_order_witness :
    extractLoop ["x".data, "has [[T1]] link".data, "[[T2]]".data] true [] =
      [⟨"T1"⟩, ⟨"T2"⟩] ∧
    extractLoop ["intro".data, "## Done".data, "[[A]]".data, "[[B]]".data,
      "[[C]]".data] false [] = [⟨"A"⟩, ⟨"B"⟩, ⟨"C"⟩] := by
  constructor
  · have h := extractDoneSection_preserves_order.1
      ["x".data, "has [[T1]] link".data, "[[T2]]".data] [] (by decide)
    rw [h]
    decide
  · exact extractDoneSection_preserves_order.2.1 ["intro".data] (by decide)

/-- C6: a section line containing several wiki-links contributes exactly
one record, whose title is the first non-greedy match trimmed of
surrounding whitespace.  First conjunct: the general first-match law for a
line `pre [[t]] rest` whatever further links `rest` holds.  Second and
third conjuncts: the spec's `[[A]] [[B]]` example contributes only
`{title:"A"}`, also through the scanning loop. -/
theorem lineTask_single_record_first_match :
    (∀ pre t rest : List Char,
      includesWikiOpen (pre ++ ['[']) = false →
      includesWikiClose (t ++ [']']) = false →
      lineTask (pre ++ '[' :: '[' :: (t ++ ']' :: ']' :: rest)) =
        some ⟨String.mk (jsTrim t)⟩) ∧
    lineTask "[[A]] [[B]]".data = some ⟨"A"⟩ ∧
    extractLoop ["[[A]] [[B]]".data] true [] = [⟨"A"⟩] :=
  ⟨lineTask_first, by decide, by decide⟩

/-- Witness for C6 on the two-link line `x[[ A ]] [[B]]`: one record only,
first capture, trimmed. -/
theorem lineTask_single_record_first_match_witness :
    lineTask "x[[ A ]] [[B]]".data = some ⟨"A"⟩ :=
  lineTask_single_record_first_match.1 ['x'] " A ".data " [[B]]".data
    (by decide) (by decide)

/-- C7: when no line of the text trims to exactly `## Done`, extraction
returns the empty sequence (and, the extractor being a total function, no
error is raised). -/
theorem extractDoneSection_no_marker_empty (content : String)
    (h : ∀ l ∈ splitLines content.data, jsTrim l ≠ doneMarker) :
    extractDoneSection content = [] := by
  unfold extractDoneSection
  have hx := extractLoop_skip_before_marker (splitLines content.data) [] [] h
  simpa using hx

/-- Witness for C7 at the text `"## done\n[[A]]"`: the lower-case marker
fails the exact-equality comparison, so nothing is collected. -/
theorem extractDoneSection_no_marker_empty_witness :
    extractDoneSection "## done\n[[A]]" = [] :=
  extractDoneSection_no_marker_empty "## done\n[[A]]" (by decide)

/-- C8: with a payload present, the composed script is the `set input to`
record statement --- calendar name, title as `summary`, content as
`description`, all interpolated raw in quotes with no escaping --- followed
by a newline and the unmodified script body; instantiated at the spec's
`say input` / `Buy milk` / `Logs` example. -/
theorem composeScript_shape :
    (∀ (script calendarName : String) (p : DispatchPayload),
      composeScript calendarName script (some p) =
        "set input to \x7bcalendarName:\"" ++ calendarName ++ "\", summary:\"" ++
          p.title ++ "\", description:\"" ++ p.content ++ "\"\x7d" ++ "\n" ++ script) ∧
    composeScript "Logs" "say input" (some ⟨"Buy milk", "Buy milk"⟩) =
      "set input to \x7bcalendarName:\"Logs\", summary:\"Buy milk\", description:\"Buy milk\"\x7d\nsay input" :=
  ⟨fun script calendarName p => rfl, by decide⟩

/-- C9: when the extracted sequence is not longer than the stored one
(shrinkage, same length, reordering), nothing is dispatched but the state
is still replaced with the new sequence. -/
theorem handleFileChange_no_growth_no_dispatch (settings : AppleScriptPluginSettings)
    (st : List TaskRecord) (path : String) (content : String)
    (outcome : ScriptOutcome)
    (hmem : settings.targetFiles.contains path = true)
    (hle : (extractDoneSection content).length ≤ st.length) :
    handleFileChange settings st path (.ok content) outcome =
      ⟨extractDoneSection content, [], true⟩ := by
  rw [handleFileChange_ok_reduction settings st path content outcome hmem,
    if_neg (by omega)]

/-- Witness for C9: a shrink from two records to one replaces the state and
dispatches nothing. -/
theorem handleFileChange_no_growth_no_dispatch_witness :
    handleFileChange ⟨"say input", true, ["board.md"], "Logs"⟩ [⟨"A"⟩, ⟨"B"⟩]
      "board.md" (.ok "## Done\n[[A]]") .ok = ⟨[⟨"A"⟩], [], true⟩ := by
  have h := handleFileChange_no_growth_no_dispatch
    ⟨"say input", true, ["board.md"], "Logs"⟩ [⟨"A"⟩, ⟨"B"⟩] "board.md"
    "## Done\n[[A]]" .ok (by decide) (by decide)
  rw [h]
  decide

/-- C10: a change event for a path outside the monitored set is a complete
no-op: the state is unchanged, nothing is dispatched, no read is attempted,
and no error is raised. -/
theorem handleFileChange_unmonitored_noop (settings : AppleScriptPluginSettings)
    (st : List TaskRecord) (path : String) (readResult : ReadResult)
    (outcome : ScriptOutcome)
    (h : settings.targetFiles.contains path = false) :
    handleFileChange settings st path readResult outcome = ⟨st, [], false⟩ := by
  unfold handleFileChange
  rw [if_pos (by simpa using h)]

/-- Witness for C10: under the default settings (empty target list) any
event is ignored without touching the state. -/
theorem handleFileChange_unmonitored_noop_witness :
    handleFileChange DEFAULT_SETTINGS [⟨"A"⟩] "board.md"
      (.ok "## Done\n[[A]]\n[[B]]") .ok = ⟨[⟨"A"⟩], [], false⟩ :=
  handleFileChange_unmonitored_noop DEFAULT_SETTINGS [⟨"A"⟩] "board.md"
    (.ok "## Done\n[[A]]\n[[B]]") .ok (by decide)

end AppleScriptRunner
